import Mathlib

/-!
Verification of the read-only remote ZIP filesystem of `earthcode/prr.py`
(`build_zip_info`, `ReadOnlyZipFileSystem.__init__`, `ReadOnlyZipFileSystem._cat_file`).

The embedding models:
- the path normalization the code performs
  (`posixpath.normpath(path).lstrip('/').rstrip('/')`),
- the member-table construction `build_zip_info` (a fold over the infolist
  reported by `zipfile.ZipFile` on the fetched tail window),
- the range-read operation `_cat_file` over an abstract ranged byte source,
- the on-the-wire layout of a stored (uncompressed, extra-field-free) ZIP
  archive, so that reads through the view can be compared with the original
  member contents.

Bytes are modelled as `List Nat`; names as `String` (one char per byte, which
is exact for the ASCII names exercised here); Python ints as `Int`.
-/

set_option maxRecDepth 20000

namespace Prr

/-- Python `s.lstrip('/')`: remove all leading slash characters. -/
def lstripSlash (s : String) : String :=
  String.mk (s.data.dropWhile (fun c => c = '/'))

/-- Python `s.rstrip('/')`: remove all trailing slash characters. -/
def rstripSlash (s : String) : String :=
  String.mk ((s.data.reverse.dropWhile (fun c => c = '/')).reverse)

/-- Python `s.split('/')` on a character list (keeps empty components). -/
def splitSlash : List Char → List (List Char)
  | [] => [[]]
  | c :: cs =>
    let r := splitSlash cs
    if c = '/' then [] :: r
    else
      match r with
      | [] => [[c]]
      | h :: t => (c :: h) :: t

/-- Python `'/'.join(comps)`. -/
def joinSlash : List String → String
  | [] => ""
  | [s] => s
  | s :: rest => s ++ "/" ++ joinSlash rest

/-- The component loop of `posixpath.normpath`: drop empty and `.` components,
resolve `..` against the accumulated components exactly as CPython does. -/
def normLoop (slashes : Nat) : List String → List String → List String
  | acc, [] => acc
  | acc, c :: cs =>
    if c = "" ∨ c = "." then normLoop slashes acc cs
    else if c ≠ ".." ∨ (slashes = 0 ∧ acc = []) ∨ acc.getLast? = some ".." then
      normLoop slashes (acc ++ [c]) cs
    else if acc ≠ [] then normLoop slashes acc.dropLast cs
    else normLoop slashes acc cs

/-- Model of `posixpath.normpath` (CPython implementation, POSIX flavour). -/
def normpath (path : String) : String :=
  if path = "" then "."
  else
    let slashes : Nat :=
      match path.data with
      | '/' :: '/' :: '/' :: _ => 1
      | '/' :: '/' :: _ => 2
      | '/' :: _ => 1
      | _ => 0
    let comps := (splitSlash path.data).map String.mk
    let p := String.mk (List.replicate slashes '/') ++ joinSlash (normLoop slashes [] comps)
    if p = "" then "." else p

/-- The normalization `_cat_file` applies to its path argument:
`posixpath.normpath(path).lstrip('/').rstrip('/')`. -/
def normalizePath (path : String) : String :=
  rstripSlash (lstripSlash (normpath path))

/-- One value of the `info_dict` built by `build_zip_info`: a Python dict that
may carry `size` and `offset` keys (file data) and a `children` key. -/
structure Entry where
  size : Option Nat
  offset : Option Int
  children : Option (List String)
deriving DecidableEq, Repr

/-- The `info_dict`: a Python dict from member name to entry (insertion order,
unique keys). -/
abbrev Table := List (String × Entry)

/-- The `children` defaultdict: parent name to accumulated child list. -/
abbrev ChMap := List (String × List String)

/-- Python dict assignment `d[k] = e`: replace the binding in place or append. -/
def dictSet : Table → String → Entry → Table
  | [], k, e => [(k, e)]
  | (k', e') :: t, k, e => if k' = k then (k, e) :: t else (k', e') :: dictSet t k e

/-- Python dict lookup `d.get(k)`. -/
def dictFind? : Table → String → Option Entry
  | [], _ => none
  | (k', e) :: t, k => if k' = k then some e else dictFind? t k

/-- Python `defaultdict(list)`: `children[parent].append(name)`. -/
def childAdd : ChMap → String → String → ChMap
  | [], p, n => [(p, [n])]
  | (p', ns) :: t, p, n =>
    if p' = p then (p', ns ++ [n]) :: t else (p', ns) :: childAdd t p n

/-- Lookup in the `children` defaultdict without inserting. -/
def chFind? : ChMap → String → Option (List String)
  | [], _ => none
  | (p', ns) :: t, p => if p' = p then some ns else chFind? t p

/-- Python `info_dict.setdefault(parent, {})["children"] = child_list`. -/
def setChildren : Table → String → List String → Table
  | [], p, cl => [(p, ⟨none, none, some cl⟩)]
  | (k, e) :: t, p, cl =>
    if k = p then (k, { e with children := some cl }) :: t
    else (k, e) :: setChildren t p cl

/-- Python `'/' in name`. -/
def hasSlash (n : String) : Bool :=
  n.data.contains '/'

/-- Python `name.rsplit('/', 1)[0]`: everything before the last slash. -/
def parentDir (n : String) : String :=
  String.mk (((n.data.reverse.dropWhile (fun c => c ≠ '/')).drop 1).reverse)

/-- The parent key `build_zip_info` registers a name under: the text before
the last slash, or the root `""` for top-level names. -/
def parentKey (n : String) : String :=
  if hasSlash n then parentDir n else ""

/-- One element of `zipfile.ZipFile(...).infolist()` as consumed by
`build_zip_info`: member name, uncompressed size, and the local-file-header
offset the parser reports (relative to the bytes it was given). -/
structure ZipInfo where
  filename : String
  file_size : Nat
  header_offset : Int
deriving DecidableEq, Repr

/-- `info.filename.rstrip('/')` for an infolist element. -/
def strippedName (i : ZipInfo) : String :=
  rstripSlash i.filename

/-- One iteration of the first loop of `build_zip_info`: record the file entry
(with the reconstructed offset) and register the parent-child relationship. -/
def buildStep (content_size original_file_size : Nat) (st : Table × ChMap)
    (info : ZipInfo) : Table × ChMap :=
  let name := strippedName info
  if name = "" then st
  else
    let entry : Entry :=
      { size := some info.file_size
        offset := some (((content_size : Int) + 30 - (original_file_size : Int)) +
          info.header_offset + (name.length : Int))
        children := none }
    (dictSet st.1 name entry, childAdd st.2 (parentKey name) name)

/-- `build_zip_info(zf, content_size, original_file_size)` from
`earthcode/prr.py`: fold the infolist into `info_dict` and `children`, then
attach each accumulated child list to its parent entry. -/
def build_zip_info (infolist : List ZipInfo) (content_size original_file_size : Nat) :
    Table :=
  let res := infolist.foldl (buildStep content_size original_file_size) ([], [])
  res.2.foldl (fun t pc => setChildren t pc.1 pc.2) res.1

/-- A raised Python exception: its class and its message. -/
structure PyErr where
  exnClass : String
  msg : String
deriving DecidableEq, Repr

/-- Python `x or d` for an optional integer (`None` and `0` are both falsy). -/
def pyOr (x : Option Int) (d : Int) : Int :=
  match x with
  | none => d
  | some v => if v = 0 then d else v

/-- `ReadOnlyZipFileSystem._cat_file` from `earthcode/prr.py`, over an
abstract ranged byte source standing for `self.fs._cat_file(self.path, ...)`. -/
def cat_file (files : Table) (source : Int → Int → List Nat)
    (path : String) (start? end? : Option Int) : Except PyErr (List Nat) :=
  let path := normalizePath path
  match dictFind? files path with
  | none => .error ⟨"FileNotFoundError", "File " ++ path ++ " not found"⟩
  | some info =>
    if (info.children).isSome then
      .error ⟨"FileNotFoundError", path ++ " is a directory"⟩
    else
      let offset := info.offset.getD 0
      let size : Int := (info.size.getD 0 : Nat)
      let start := pyOr start? 0
      let start := if start < 0 then max 0 (size + start) else start
      let stop := pyOr end? size
      let stop := if stop < 0 then max 0 (size + stop) else stop
      if start ≥ size ∨ stop ≤ start then .ok []
      else
        let read_start := offset + start
        let read_size := min stop size - start
        .ok (source read_start (read_start + read_size))

/-! ### Stored ZIP archive layout

A stored (uncompressed) ZIP archive with empty extra fields and comments,
as produced for the test scenarios of the specification.  Only the byte
COUNTS of the fixed header portions matter for offset reconstruction, but the
real field layout is kept so the `30` of the formula arises structurally. -/

/-- One archive member: its name and its raw content bytes. -/
structure ZipMember where
  filename : String
  content : List Nat
deriving DecidableEq, Repr

/-- Little-endian 16-bit field. -/
def le16 (n : Nat) : List Nat :=
  [n % 256, n / 256 % 256]

/-- Little-endian 32-bit field. -/
def le32 (n : Nat) : List Nat :=
  [n % 256, n / 256 % 256, n / 65536 % 256, n / 16777216 % 256]

/-- The bytes of a member name (one byte per character; exact for ASCII). -/
def nameBytes (s : String) : List Nat :=
  s.data.map Char.toNat

/-- The 30 fixed bytes of a local file header (stored member, CRC not
modelled, empty extra field): signature, version, flags, method, time, date,
CRC, compressed size, uncompressed size, name length, extra length. -/
def localHeader (m : ZipMember) : List Nat :=
  [80, 75, 3, 4] ++ le16 20 ++ le16 0 ++ le16 0 ++ le16 0 ++ le16 0 ++
    le32 0 ++ le32 m.content.length ++ le32 m.content.length ++
    le16 m.filename.length ++ le16 0

/-- A member as laid out in the archive body: fixed header, name, content. -/
def localChunk (m : ZipMember) : List Nat :=
  localHeader m ++ nameBytes m.filename ++ m.content

/-- The 46 fixed bytes of a central directory record for a stored member with
the given local-file-header offset. -/
def centralRecord (offset : Nat) (m : ZipMember) : List Nat :=
  [80, 75, 1, 2] ++ le16 20 ++ le16 20 ++ le16 0 ++ le16 0 ++ le16 0 ++ le16 0 ++
    le32 0 ++ le32 m.content.length ++ le32 m.content.length ++
    le16 m.filename.length ++ le16 0 ++ le16 0 ++ le16 0 ++ le16 0 ++ le32 0 ++
    le32 offset ++ nameBytes m.filename

/-- The 22-byte end-of-central-directory record. -/
def eocd (entries cdSize cdOffset : Nat) : List Nat :=
  [80, 75, 5, 6] ++ le16 0 ++ le16 0 ++ le16 entries ++ le16 entries ++
    le32 cdSize ++ le32 cdOffset ++ le16 0

/-- Pair every member with its local-file-header offset, starting at `k`. -/
def withOffsets : List ZipMember → Nat → List (ZipMember × Nat)
  | [], _ => []
  | m :: ms, k => (m, k) :: withOffsets ms (k + (localChunk m).length)

/-- The archive body: the concatenated local chunks. -/
def localPart (ms : List ZipMember) : List Nat :=
  (ms.map localChunk).flatten

/-- The central directory: one record per member, in order. -/
def cdPart (ms : List ZipMember) : List Nat :=
  ((withOffsets ms 0).map (fun p => centralRecord p.2 p.1)).flatten

/-- The full serialized archive. -/
def serializeZip (ms : List ZipMember) : List Nat :=
  localPart ms ++ cdPart ms ++ eocd ms.length (cdPart ms).length (localPart ms).length

/-- Total archive size (the value of the `Content-Range` total). -/
def archiveSize (ms : List ZipMember) : Nat :=
  (serializeZip ms).length

/-- Model of `zipfile.ZipFile(BytesIO(tail)).infolist()` where `tail` is the
last `L` bytes of `serializeZip ms` and `L` is large enough that the tail
holds the whole central directory and EOCD record (`cdLen ms + 22 ≤ L`) and
no larger than the archive (`L ≤ archiveSize ms`).  CPython corrects every
recorded header offset by `concat = eocdPositionInTail - cdSize - cdOffset`,
which for this layout equals `L - archiveSize ms`, so the reported offset of
a member is its true offset shifted by `L - archiveSize ms`. -/
def tailInfolist (ms : List ZipMember) (L : Nat) : List ZipInfo :=
  (withOffsets ms 0).map fun p =>
    ⟨p.1.filename, p.1.content.length, (p.2 : Int) + (L : Int) - (archiveSize ms : Int)⟩

/-- Byte length of the central directory. -/
def cdLen (ms : List ZipMember) : Nat :=
  (cdPart ms).length

/-- A tail window that holds the full central directory plus EOCD record and
does not exceed the archive itself. -/
def validWindow (ms : List ZipMember) (L : Nat) : Prop :=
  cdLen ms + 22 ≤ L ∧ L ≤ archiveSize ms

instance (ms : List ZipMember) (L : Nat) : Decidable (validWindow ms L) := by
  unfold validWindow; infer_instance

/-- The member table `ReadOnlyZipFileSystem.__init__` stores in `self._files`
after fetching a tail window of `L` bytes: `build_zip_info(zf, content_size,
len(tail))` with `content_size` the total size from `Content-Range`. -/
def viewFiles (ms : List ZipMember) (L : Nat) : Table :=
  build_zip_info (tailInfolist ms L) (archiveSize ms) L

/-- An HTTP ranged byte source over concrete resource bytes:
`fetch_range(a, b)` returns `data[a:b]`. -/
def httpSource (data : List Nat) (a b : Int) : List Nat :=
  (data.take b.toNat).drop a.toNat

/-- A read through the whole pipeline: open the archive with an `L`-byte tail
window, then `_cat_file` against the remote archive bytes. -/
def readMember (ms : List ZipMember) (L : Nat) (path : String)
    (start? end? : Option Int) : Except PyErr (List Nat) :=
  cat_file (viewFiles ms L) (httpSource (serializeZip ms)) path start? end?

/-! ### Concrete scenarios -/

/-- `b"hello"`. -/
def helloBytes : List Nat := [104, 101, 108, 108, 111]

/-- `b"world!"`. -/
def worldBytes : List Nat := [119, 111, 114, 108, 100, 33]

/-- Scenario A of the specification: `x.txt` holding `b"hello"` and
`dir/y.txt` holding `b"world!"`, both stored uncompressed. -/
def scenarioA : List ZipMember :=
  [⟨"x.txt", helloBytes⟩, ⟨"dir/y.txt", worldBytes⟩]

/-- An archive whose only member sits two directory levels deep. -/
def deepArchive : List ZipMember :=
  [⟨"a/b/c.txt", [42]⟩]

/-! ### Helper definitions used by the proofs -/

/-- The table value `build_zip_info` assigns to a file entry built from the
infolist element `i`. -/
def fileEntry (cs ofs : Nat) (i : ZipInfo) : Entry :=
  { size := some i.file_size
    offset := some (((cs : Int) + 30 - (ofs : Int)) + i.header_offset +
      ((strippedName i).length : Int))
    children := none }

/-- The value `setdefault` produces: attach a child list to an existing entry
or create a fresh directory-only entry. -/
def withChildren : Option Entry → List String → Entry
  | some e, cl => { e with children := some cl }
  | none, cl => ⟨none, none, some cl⟩

/-- The full names `build_zip_info` accumulates under parent `p`, in infolist
order: the stripped nonempty names whose parent key is `p`. -/
def childrenSpec (l : List ZipInfo) (p : String) : List String :=
  (l.map strippedName).filter (fun n => !(n == "") && (parentKey n == p))

/-- Keys of the children map. -/
def chKeys (c : ChMap) : List String :=
  c.map Prod.fst

/-- Resolution of an infolist element against the window parameters: the
absolute local-file-header position `(content_size + 30 - window_length) +
header_offset` that `build_zip_info` bakes into the offset. -/
def resolve (cs ofs : Nat) (i : ZipInfo) : ZipInfo :=
  ⟨i.filename, i.file_size, ((cs : Int) + 30 - (ofs : Int)) + i.header_offset⟩

end Prr

deriving instance DecidableEq for Except

namespace Prr

/-! ### Helper lemmas about the dictionary and children-map operations,
the two passes of `build_zip_info`, and the archive layout -/

theorem withChildren_children (o : Option Entry) (cl : List String) :
    (withChildren o cl).children = some cl := by
  cases o <;> rfl

theorem dictFind?_dictSet (t : Table) (k : String) (e : Entry) (k' : String) :
    dictFind? (dictSet t k e) k' = if k = k' then some e else dictFind? t k' := by
  induction t with
  | nil => simp [dictSet, dictFind?]
  | cons he tl ih =>
    obtain ⟨k0, e0⟩ := he
    simp only [dictSet, dictFind?]
    split_ifs with h1 h2 h3 <;> simp_all [dictFind?]

theorem setChildren_find (t : Table) (p : String) (cl : List String) (k : String) :
    dictFind? (setChildren t p cl) k
      = if p = k then some (withChildren (dictFind? t p) cl) else dictFind? t k := by
  induction t with
  | nil => simp [setChildren, dictFind?, withChildren]
  | cons he tl ih =>
    obtain ⟨k0, e0⟩ := he
    simp only [setChildren, dictFind?]
    split_ifs with h1 h2 h3 h4 <;> simp_all [dictFind?, withChildren]

theorem chFind?_childAdd (c : ChMap) (p n : String) (p' : String) :
    chFind? (childAdd c p n) p'
      = if p = p' then some ((chFind? c p).getD [] ++ [n]) else chFind? c p' := by
  induction c with
  | nil => simp [childAdd, chFind?]
  | cons he tl ih =>
    obtain ⟨p0, ns0⟩ := he
    simp only [childAdd, chFind?]
    split_ifs with h1 h2 h3 h4 <;> simp_all [chFind?]

theorem chKeys_childAdd (c : ChMap) (p n : String) :
    chKeys (childAdd c p n) = if p ∈ chKeys c then chKeys c else chKeys c ++ [p] := by
  induction c with
  | nil => simp [childAdd, chKeys]
  | cons he tl ih =>
    obtain ⟨p0, ns0⟩ := he
    simp only [childAdd, chKeys, List.map_cons]
    split_ifs with h1 h2 h3 <;> simp_all [chKeys, List.mem_cons] <;> tauto

theorem chFind?_mem (c : ChMap) (p : String) (cl : List String)
    (h : chFind? c p = some cl) : (p, cl) ∈ c := by
  induction c with
  | nil => simp [chFind?] at h
  | cons he tl ih =>
    obtain ⟨p0, ns0⟩ := he
    simp only [chFind?] at h
    by_cases h0 : p0 = p
    · simp [h0] at h
      simp [h0, h]
    · simp [h0] at h
      exact List.mem_cons_of_mem _ (ih h)


theorem phase1_table_unchanged (cs ofs : Nat) (l : List ZipInfo) (st : Table × ChMap)
    (k : String) (h : ∀ i ∈ l, strippedName i ≠ k) :
    dictFind? (l.foldl (buildStep cs ofs) st).1 k = dictFind? st.1 k := by
  induction l generalizing st with
  | nil => rfl
  | cons i tl ih =>
    simp only [List.foldl_cons]
    rw [ih _ (fun j hj => h j (List.mem_cons_of_mem _ hj))]
    unfold buildStep
    by_cases hname : strippedName i = ""
    · simp [hname]
    · simp [hname, dictFind?_dictSet, h i (List.mem_cons_self i tl)]

theorem phase1_find_file (cs ofs : Nat) (l : List ZipInfo) (st : Table × ChMap)
    (i : ZipInfo) (hi : i ∈ l) (hn : strippedName i ≠ "")
    (hnodup : (l.map strippedName).Nodup) :
    dictFind? (l.foldl (buildStep cs ofs) st).1 (strippedName i)
      = some (fileEntry cs ofs i) := by
  induction l generalizing st with
  | nil => cases hi
  | cons j tl ih =>
    simp only [List.map_cons, List.nodup_cons, List.mem_map] at hnodup
    rcases List.mem_cons.mp hi with rfl | hi'
    · simp only [List.foldl_cons]
      rw [phase1_table_unchanged cs ofs tl _ _
        (fun j' hj' heq => hnodup.1 ⟨j', hj', heq⟩)]
      unfold buildStep
      simp [hn, dictFind?_dictSet, fileEntry]
    · exact ih _ hi' hnodup.2


theorem buildStep_fst (cs ofs : Nat) (st : Table × ChMap) (i : ZipInfo) :
    (buildStep cs ofs st i).1
      = if strippedName i = "" then st.1
        else dictSet st.1 (strippedName i) (fileEntry cs ofs i) := by
  simp only [buildStep, fileEntry]
  split_ifs <;> rfl

theorem buildStep_snd (cs ofs : Nat) (st : Table × ChMap) (i : ZipInfo) :
    (buildStep cs ofs st i).2
      = if strippedName i = "" then st.2
        else childAdd st.2 (parentKey (strippedName i)) (strippedName i) := by
  simp only [buildStep]
  split_ifs <;> rfl

theorem childrenSpec_cons (i : ZipInfo) (tl : List ZipInfo) (p : String) :
    childrenSpec (i :: tl) p
      = if strippedName i ≠ "" ∧ parentKey (strippedName i) = p
        then strippedName i :: childrenSpec tl p else childrenSpec tl p := by
  simp only [childrenSpec, List.map_cons, List.filter_cons]
  split_ifs with h1 h2 h3 <;> simp_all

theorem chFind?_phase1_some (cs ofs : Nat) (l : List ZipInfo) (st : Table × ChMap)
    (p : String) (cl0 : List String) (h : chFind? st.2 p = some cl0) :
    chFind? (l.foldl (buildStep cs ofs) st).2 p = some (cl0 ++ childrenSpec l p) := by
  induction l generalizing st cl0 with
  | nil => simpa [childrenSpec] using h
  | cons i tl ih =>
    simp only [List.foldl_cons]
    rw [childrenSpec_cons]
    by_cases hname : strippedName i = ""
    · have hstep : buildStep cs ofs st i = st := by unfold buildStep; simp [hname]
      rw [hstep]
      simp only [hname, not_true_eq_false, false_and, if_false]
      exact ih _ _ h
    · by_cases hpk : parentKey (strippedName i) = p
      · have hfound : chFind? (buildStep cs ofs st i).2 p = some (cl0 ++ [strippedName i]) := by
          unfold buildStep
          simp [hname, chFind?_childAdd, hpk, h]
        rw [ih _ _ hfound]
        simp [hname, hpk]
      · have hfound : chFind? (buildStep cs ofs st i).2 p = some cl0 := by
          unfold buildStep
          simp only [hname, if_neg]
          simp [hname, chFind?_childAdd, hpk, h]
        rw [ih _ _ hfound]
        simp [hname, hpk]

theorem chFind?_phase1_none (cs ofs : Nat) (l : List ZipInfo) (st : Table × ChMap)
    (p : String) (h : chFind? st.2 p = none) :
    chFind? (l.foldl (buildStep cs ofs) st).2 p
      = if childrenSpec l p = [] then none else some (childrenSpec l p) := by
  induction l generalizing st with
  | nil => simpa [childrenSpec] using h
  | cons i tl ih =>
    simp only [List.foldl_cons]
    rw [childrenSpec_cons]
    by_cases hname : strippedName i = ""
    · have hstep : buildStep cs ofs st i = st := by unfold buildStep; simp [hname]
      rw [hstep]
      simp only [hname, not_true_eq_false, false_and, if_false]
      exact ih _ h
    · by_cases hpk : parentKey (strippedName i) = p
      · have hfound : chFind? (buildStep cs ofs st i).2 p = some [strippedName i] := by
          unfold buildStep
          simp [hname, chFind?_childAdd, hpk, h]
        rw [chFind?_phase1_some cs ofs tl _ p _ hfound]
        simp [hname, hpk]
      · have hfound : chFind? (buildStep cs ofs st i).2 p = none := by
          unfold buildStep
          simp [hname, chFind?_childAdd, hpk, h]
        rw [ih _ hfound]
        simp [hname, hpk]

theorem chKeys_phase1_subset (cs ofs : Nat) (l : List ZipInfo) (st : Table × ChMap) :
    ∀ q ∈ chKeys (l.foldl (buildStep cs ofs) st).2,
      q ∈ chKeys st.2 ∨ q ∈ l.map (fun i => parentKey (strippedName i)) := by
  induction l generalizing st with
  | nil => intro q hq; exact Or.inl hq
  | cons i tl ih =>
    intro q hq
    simp only [List.foldl_cons] at hq
    rcases ih _ q hq with hq' | hq'
    · unfold chKeys at hq'
      rw [buildStep_snd] at hq'
      by_cases hname : strippedName i = ""
      · rw [if_pos hname] at hq'
        exact Or.inl hq'
      · rw [if_neg hname] at hq'
        have := chKeys_childAdd st.2 (parentKey (strippedName i)) (strippedName i)
        unfold chKeys at this
        rw [this] at hq'
        split_ifs at hq' with hmem
        · exact Or.inl hq'
        · rcases List.mem_append.mp hq' with h1 | h1
          · exact Or.inl h1
          · simp at h1
            subst h1
            exact Or.inr (by simp)
    · exact Or.inr (List.mem_cons_of_mem _ hq')

theorem chKeys_phase1_nodup (cs ofs : Nat) (l : List ZipInfo) (st : Table × ChMap)
    (h : (chKeys st.2).Nodup) :
    (chKeys (l.foldl (buildStep cs ofs) st).2).Nodup := by
  induction l generalizing st with
  | nil => exact h
  | cons i tl ih =>
    simp only [List.foldl_cons]
    apply ih
    unfold chKeys
    rw [buildStep_snd]
    by_cases hname : strippedName i = ""
    · rw [if_pos hname]
      exact h
    · rw [if_neg hname]
      have := chKeys_childAdd st.2 (parentKey (strippedName i)) (strippedName i)
      unfold chKeys at this
      rw [this]
      split_ifs with hmem
      · exact h
      · unfold chKeys at h
        simp [List.nodup_append, h, hmem]


theorem phase2_find_not_mem (ch : ChMap) (t : Table) (k : String)
    (h : ∀ pc ∈ ch, pc.1 ≠ k) :
    dictFind? (ch.foldl (fun t pc => setChildren t pc.1 pc.2) t) k = dictFind? t k := by
  induction ch generalizing t with
  | nil => rfl
  | cons pc tl ih =>
    simp only [List.foldl_cons]
    rw [ih _ (fun pc' hpc' => h pc' (List.mem_cons_of_mem _ hpc'))]
    rw [setChildren_find]
    exact if_neg (h pc (List.mem_cons_self pc tl))

theorem phase2_find_mem (ch : ChMap) (t : Table) (p : String) (cl : List String)
    (hmem : (p, cl) ∈ ch) (hnodup : (chKeys ch).Nodup) :
    dictFind? (ch.foldl (fun t pc => setChildren t pc.1 pc.2) t) p
      = some (withChildren (dictFind? t p) cl) := by
  induction ch generalizing t with
  | nil => cases hmem
  | cons pc tl ih =>
    unfold chKeys at hnodup
    simp only [List.map_cons, List.nodup_cons] at hnodup
    rcases List.mem_cons.mp hmem with rfl | hmem'
    · simp only [List.foldl_cons]
      rw [phase2_find_not_mem tl _ p
        (fun pc' hpc' heq => hnodup.1 (by have hm := List.mem_map_of_mem Prod.fst hpc'; rwa [heq] at hm))]
      rw [setChildren_find, if_pos rfl]
    · have hne : pc.1 ≠ p := by
        intro heq
        exact hnodup.1 (heq ▸ List.mem_map_of_mem Prod.fst hmem')
      simp only [List.foldl_cons]
      rw [ih _ hmem' hnodup.2]
      rw [setChildren_find, if_neg hne]

theorem phase2_preserves_file (ch : ChMap) (t : Table) (k : String) (e : Entry)
    (h : dictFind? t k = some e) :
    ∃ e', dictFind? (ch.foldl (fun t pc => setChildren t pc.1 pc.2) t) k = some e'
      ∧ e'.size = e.size ∧ e'.offset = e.offset := by
  induction ch generalizing t e with
  | nil => exact ⟨e, h, rfl, rfl⟩
  | cons pc tl ih =>
    simp only [List.foldl_cons]
    by_cases hp : pc.1 = k
    · subst hp
      refine ih _ ({ e with children := some pc.2 }) ?_
      rw [setChildren_find, if_pos rfl, h]
      rfl
    · refine ih _ e ?_
      rw [setChildren_find, if_neg hp]
      exact h

theorem build_find_file (l : List ZipInfo) (cs ofs : Nat) (i : ZipInfo)
    (hi : i ∈ l) (hn : strippedName i ≠ "")
    (hnodup : (l.map strippedName).Nodup)
    (hnp : ∀ j ∈ l, parentKey (strippedName j) ≠ strippedName i) :
    dictFind? (build_zip_info l cs ofs) (strippedName i) = some (fileEntry cs ofs i) := by
  unfold build_zip_info
  rw [phase2_find_not_mem]
  · exact phase1_find_file cs ofs l _ i hi hn hnodup
  · intro pc hpc heq
    rcases chKeys_phase1_subset cs ofs l ([], []) pc.1
        (List.mem_map_of_mem Prod.fst hpc) with h1 | h1
    · simp [chKeys] at h1
    · rcases List.mem_map.mp h1 with ⟨j, hj, hjp⟩
      exact hnp j hj (heq ▸ hjp)

theorem build_children (l : List ZipInfo) (cs ofs : Nat) (p : String)
    (h : childrenSpec l p ≠ []) :
    ∃ e, dictFind? (build_zip_info l cs ofs) p = some e
      ∧ e.children = some (childrenSpec l p) := by
  unfold build_zip_info
  have hnone : chFind? (([], []) : Table × ChMap).2 p = none := rfl
  have hch := chFind?_phase1_none cs ofs l ([], []) p hnone
  rw [if_neg h] at hch
  have hmem := chFind?_mem _ _ _ hch
  have hnodup := chKeys_phase1_nodup cs ofs l ([], []) (by simp [chKeys])
  refine ⟨withChildren (dictFind? (l.foldl (buildStep cs ofs) ([], [])).1 p) (childrenSpec l p),
    ?_, withChildren_children _ _⟩
  exact phase2_find_mem _ _ _ _ hmem hnodup


theorem buildStep_congr (cs1 ofs1 cs2 ofs2 : Nat) (i1 i2 : ZipInfo)
    (h : resolve cs1 ofs1 i1 = resolve cs2 ofs2 i2) (st : Table × ChMap) :
    buildStep cs1 ofs1 st i1 = buildStep cs2 ofs2 st i2 := by
  unfold resolve at h
  rw [ZipInfo.mk.injEq] at h
  obtain ⟨hf, hs, ho⟩ := h
  have hsn : strippedName i1 = strippedName i2 := by unfold strippedName; rw [hf]
  simp only [buildStep]
  rw [hsn, hs]
  by_cases hname : strippedName i2 = ""
  · simp [hname]
  · simp only [hname, if_false]
    have : ((cs1 : Int) + 30 - (ofs1 : Int)) + i1.header_offset
        = ((cs2 : Int) + 30 - (ofs2 : Int)) + i2.header_offset := ho
    rw [show ((cs1 : Int) + 30 - (ofs1 : Int)) + i1.header_offset + ((strippedName i2).length : Int)
        = ((cs2 : Int) + 30 - (ofs2 : Int)) + i2.header_offset + ((strippedName i2).length : Int)
      from by rw [this]]

theorem build_congr (l1 l2 : List ZipInfo) (cs1 ofs1 cs2 ofs2 : Nat)
    (h : l1.map (resolve cs1 ofs1) = l2.map (resolve cs2 ofs2)) :
    build_zip_info l1 cs1 ofs1 = build_zip_info l2 cs2 ofs2 := by
  unfold build_zip_info
  suffices hfold : ∀ st : Table × ChMap,
      l1.foldl (buildStep cs1 ofs1) st = l2.foldl (buildStep cs2 ofs2) st by
    rw [hfold ([], [])]
  induction l1 generalizing l2 with
  | nil =>
    cases l2 with
    | nil => intro st; rfl
    | cons j t2 => simp at h
  | cons i t1 ih =>
    cases l2 with
    | nil => simp at h
    | cons j t2 =>
      simp only [List.map_cons, List.cons.injEq] at h
      intro st
      simp only [List.foldl_cons]
      rw [buildStep_congr cs1 ofs1 cs2 ofs2 i j h.1 st]
      exact ih t2 h.2 _

theorem localHeader_length (m : ZipMember) : (localHeader m).length = 30 := by
  simp [localHeader, le16, le32]

theorem nameBytes_length (s : String) : (nameBytes s).length = s.length := by
  cases s
  simp [nameBytes, String.length_mk]

theorem mem_withOffsets (ms : List ZipMember) (k : Nat) (m : ZipMember) (h : m ∈ ms) :
    ∃ o, (m, o) ∈ withOffsets ms k := by
  induction ms generalizing k with
  | nil => cases h
  | cons m0 tl ih =>
    rcases List.mem_cons.mp h with rfl | h'
    · exact ⟨k, List.mem_cons_self _ _⟩
    · obtain ⟨o, ho⟩ := ih (k + (localChunk m0).length) h'
      exact ⟨o, List.mem_cons_of_mem _ ho⟩

theorem withOffsets_drop (ms : List ZipMember) (k : Nat) (m : ZipMember) (o : Nat)
    (h : (m, o) ∈ withOffsets ms k) (tail : List Nat) :
    k ≤ o ∧ ∃ rest, (localPart ms ++ tail).drop (o - k) = localChunk m ++ rest := by
  induction ms generalizing k tail with
  | nil => cases h
  | cons m0 tl ih =>
    simp only [withOffsets, List.mem_cons] at h
    rcases h with h | h
    · rw [Prod.mk.injEq] at h
      obtain ⟨h1, h2⟩ := h
      subst h1
      subst h2
      refine ⟨le_refl _, localPart tl ++ tail, ?_⟩
      simp [localPart, List.append_assoc]
    · obtain ⟨hle, rest, hdrop⟩ := ih (k + (localChunk m0).length) h tail
      refine ⟨by omega, rest, ?_⟩
      have hsplit : o - k = (localChunk m0).length + (o - (k + (localChunk m0).length)) := by
        omega
      simp only [localPart, List.map_cons, List.flatten_cons, List.append_assoc]
      rw [hsplit, List.drop_append]
      simpa [localPart] using hdrop


theorem serialize_content_slice (ms : List ZipMember) (m : ZipMember) (o : Nat)
    (h : (m, o) ∈ withOffsets ms 0) :
    ((serializeZip ms).drop (o + 30 + m.filename.length)).take m.content.length
      = m.content := by
  obtain ⟨-, rest, hdrop⟩ := withOffsets_drop ms 0 m o h
    (cdPart ms ++ eocd ms.length (cdPart ms).length (localPart ms).length)
  have hser : serializeZip ms
      = localPart ms ++ (cdPart ms ++ eocd ms.length (cdPart ms).length (localPart ms).length) := by
    simp [serializeZip, List.append_assoc]
  rw [hser]
  have hdrop0 : (localPart ms
      ++ (cdPart ms ++ eocd ms.length (cdPart ms).length (localPart ms).length)).drop o
      = localChunk m ++ rest := by simpa using hdrop
  rw [show o + 30 + m.filename.length = o + (30 + m.filename.length) from by omega]
  rw [← List.drop_drop, hdrop0]
  have hsplit : localChunk m ++ rest
      = (localHeader m ++ nameBytes m.filename) ++ (m.content ++ rest) := by
    simp [localChunk, List.append_assoc]
  rw [hsplit]
  have hlen : (localHeader m ++ nameBytes m.filename).length = 30 + m.filename.length := by
    simp [List.length_append, localHeader_length, nameBytes_length]
  rw [← hlen, List.drop_left]
  exact List.take_left m.content rest

theorem withOffsets_map_fst (ms : List ZipMember) (k : Nat) :
    (withOffsets ms k).map Prod.fst = ms := by
  induction ms generalizing k with
  | nil => rfl
  | cons m0 tl ih => simp [withOffsets, ih]

theorem withOffsets_fst_mem (ms : List ZipMember) (k : Nat) (p : ZipMember × Nat)
    (h : p ∈ withOffsets ms k) : p.1 ∈ ms := by
  have := List.mem_map_of_mem Prod.fst h
  rwa [withOffsets_map_fst] at this

theorem tailInfolist_strippedNames (ms : List ZipMember) (L : Nat)
    (hstrip : ∀ m' ∈ ms, rstripSlash m'.filename = m'.filename) :
    (tailInfolist ms L).map strippedName = ms.map ZipMember.filename := by
  unfold tailInfolist
  rw [List.map_map]
  have h1 : ∀ p ∈ withOffsets ms 0,
      (strippedName ∘ fun p : ZipMember × Nat =>
        (⟨p.1.filename, p.1.content.length,
          (p.2 : Int) + (L : Int) - (archiveSize ms : Int)⟩ : ZipInfo)) p
      = (fun p : ZipMember × Nat => p.1.filename) p := by
    intro p hp
    exact hstrip p.1 (withOffsets_fst_mem ms 0 p hp)
  rw [List.map_congr_left h1]
  rw [show (fun p : ZipMember × Nat => p.1.filename)
      = ZipMember.filename ∘ Prod.fst from rfl]
  rw [← List.map_map, withOffsets_map_fst]


theorem notFoundMsg_ne_isDirMsg (q : String) :
    ("File " ++ q ++ " not found" : String) ≠ q ++ " is a directory" := by
  intro h
  have hd := congrArg String.data h
  simp only [String.data_append] at hd
  have hr := congrArg List.reverse hd
  simp only [List.reverse_append] at hr
  rw [show (" not found" : String).data.reverse
        = 'd' :: ['n', 'u', 'o', 'f', ' ', 't', 'o', 'n', ' '] from by decide,
      show (" is a directory" : String).data.reverse
        = 'y' :: ['r', 'o', 't', 'c', 'e', 'r', 'i', 'd', ' ', 'a', ' ', 's', 'i', ' ']
        from by decide] at hr
  simp only [List.cons_append] at hr
  injection hr with h1 _
  exact absurd h1 (by decide)

end Prr

namespace Prr

/-! ### Claim theorems -/

/-- Claim C1 (confirmed): for an uncompressed, extra-field-free archive whose
members have distinct, already-normalized names, none of which is also used
as a parent directory, opened with a tail window that contains the central
directory and EOCD record, reading the full range of any file member through
the view returns exactly the content bytes of that member; concretely, on the
Scenario A archive, reading `x.txt` yields `b"hello"` and reading bytes
`[1, 4)` of `dir/y.txt` yields `b"orl"`. -/
theorem c1_read_full_range (ms : List ZipMember) (L : Nat) (m : ZipMember)
    (hmem : m ∈ ms)
    (hstrip : ∀ m' ∈ ms, rstripSlash m'.filename = m'.filename)
    (hnodup : (ms.map ZipMember.filename).Nodup)
    (hnorm : normalizePath m.filename = m.filename)
    (hne : m.filename ≠ "")
    (hnp : ∀ m' ∈ ms, parentKey m'.filename ≠ m.filename)
    (hwin : validWindow ms L) :
    readMember ms L m.filename none none = .ok m.content
    ∧ readMember scenarioA (archiveSize scenarioA) "x.txt" none none = .ok helloBytes
    ∧ readMember scenarioA (archiveSize scenarioA) "dir/y.txt" (some 1) (some 4)
      = .ok [111, 114, 108] := by
  refine ⟨?_, by decide, by decide⟩
  clear hwin
  obtain ⟨o, ho⟩ := mem_withOffsets ms 0 m hmem
  have hiMem : (⟨m.filename, m.content.length,
      (o : Int) + (L : Int) - (archiveSize ms : Int)⟩ : ZipInfo) ∈ tailInfolist ms L := by
    unfold tailInfolist
    exact List.mem_map_of_mem _ ho
  set i : ZipInfo := ⟨m.filename, m.content.length,
    (o : Int) + (L : Int) - (archiveSize ms : Int)⟩ with hidef
  have hsn : strippedName i = m.filename := hstrip m hmem
  have hnodup' : ((tailInfolist ms L).map strippedName).Nodup := by
    rw [tailInfolist_strippedNames ms L hstrip]
    exact hnodup
  have hnp' : ∀ j ∈ tailInfolist ms L, parentKey (strippedName j) ≠ strippedName i := by
    intro j hj
    rw [hsn]
    unfold tailInfolist at hj
    obtain ⟨p, hp, rfl⟩ := List.mem_map.mp hj
    have hrs : strippedName (⟨p.1.filename, p.1.content.length,
        (p.2 : Int) + (L : Int) - (archiveSize ms : Int)⟩ : ZipInfo) = p.1.filename :=
      hstrip p.1 (withOffsets_fst_mem ms 0 p hp)
    rw [hrs]
    exact hnp p.1 (withOffsets_fst_mem ms 0 p hp)
  have hfind := build_find_file (tailInfolist ms L) (archiveSize ms) L i hiMem
    (by rw [hsn]; exact hne) hnodup' hnp'
  rw [hsn] at hfind
  have hoffval : fileEntry (archiveSize ms) L i
      = ⟨some m.content.length, some ((o + 30 + m.filename.length : Nat) : Int), none⟩ := by
    simp only [fileEntry, hsn, hidef]
    rw [Entry.mk.injEq]
    refine ⟨rfl, ?_, rfl⟩
    rw [Option.some.injEq]
    push_cast
    ring
  rw [hoffval] at hfind
  simp only [readMember, viewFiles, cat_file, hnorm, hfind]
  simp only [Option.isSome_none, Bool.false_eq_true, if_false, Option.getD_some, pyOr]
  have h1 : ¬((0 : Int) < 0) := by omega
  have h2 : ¬((m.content.length : Int) < 0) := by omega
  simp only [if_neg h1, if_neg h2, add_zero, sub_zero, min_self]
  by_cases hc : m.content.length = 0
  · have hnil : m.content = [] := List.length_eq_zero.mp hc
    rw [if_pos]
    · rw [hnil]
    · right
      omega
  · rw [if_neg]
    · rw [Except.ok.injEq]
      simp only [httpSource]
      rw [List.drop_take]
      simp only [← Nat.cast_add, Int.toNat_natCast]
      rw [show o + 30 + m.filename.length + m.content.length - (o + 30 + m.filename.length)
          = m.content.length from by omega]
      exact serialize_content_slice ms m o ho
    · simp only [ge_iff_le, not_or, not_le]
      refine ⟨by omega, by omega⟩

/-- Witness for C1: Scenario A, member `x.txt`, whole-archive tail window. -/
theorem c1_read_full_range_witness :
    (⟨"x.txt", helloBytes⟩ : ZipMember) ∈ scenarioA
    ∧ validWindow scenarioA 213
    ∧ readMember scenarioA 213 "x.txt" none none = .ok helloBytes := by
  refine ⟨by decide, by decide, ?_⟩
  exact (c1_read_full_range scenarioA 213 ⟨"x.txt", helloBytes⟩ (by decide) (by decide)
    (by decide) (by decide) (by decide) (by decide) (by decide)).1

/-- Claim C2 (confirmed): every file member recorded in the table has
`content_offset = (full_archive_size + 30 - tail_window_byte_length)
+ recorded_local_header_offset + length(name_bytes)` and `size` equal to the
recorded uncompressed size, where the member name is the stripped infolist
name. -/
theorem c2_offset_formula (l : List ZipInfo) (cs ofs : Nat) (i : ZipInfo)
    (hi : i ∈ l) (hn : strippedName i ≠ "")
    (hnodup : (l.map strippedName).Nodup) :
    ∃ e, dictFind? (build_zip_info l cs ofs) (strippedName i) = some e
      ∧ e.size = some i.file_size
      ∧ e.offset = some (((cs : Int) + 30 - (ofs : Int)) + i.header_offset
          + ((strippedName i).length : Int)) := by
  unfold build_zip_info
  obtain ⟨e', hfind, hsz, hoff⟩ := phase2_preserves_file _ _ _ _
    (phase1_find_file cs ofs l ([], []) i hi hn hnodup)
  exact ⟨e', hfind, by rw [hsz]; rfl, by rw [hoff]; rfl⟩

/-- Witness for C2: the `dir/y.txt` record of Scenario A, whole-archive
window (`content_size = 213`, `len(tail) = 213`, recorded offset `40`). -/
theorem c2_offset_formula_witness :
    (⟨"dir/y.txt", 6, (40 : Int)⟩ : ZipInfo) ∈ tailInfolist scenarioA 213
    ∧ ∃ e, dictFind? (build_zip_info (tailInfolist scenarioA 213) 213 213)
        (strippedName ⟨"dir/y.txt", 6, (40 : Int)⟩) = some e
      ∧ e.size = some (ZipInfo.file_size ⟨"dir/y.txt", 6, (40 : Int)⟩)
      ∧ e.offset = some ((((213 : Nat) : Int) + 30 - ((213 : Nat) : Int))
          + ZipInfo.header_offset ⟨"dir/y.txt", 6, (40 : Int)⟩
          + ((strippedName ⟨"dir/y.txt", 6, (40 : Int)⟩).length : Int)) := by
  refine ⟨by decide, ?_⟩
  exact c2_offset_formula (tailInfolist scenarioA 213) 213 213 ⟨"dir/y.txt", 6, 40⟩
    (by decide) (by decide) (by decide)

/-- Counterexample to claim C3 as stated: with the Scenario A view,
`read("x.txt", 0, 0)` returns the full `b"hello"` rather than an empty byte
sequence, because `end = end or size` treats an explicit `0` as unspecified. -/
theorem c3_counterexample :
    readMember scenarioA 213 "x.txt" (some 0) (some 0) = .ok helloBytes
    ∧ helloBytes ≠ [] := by decide

/-- Claim C3 (corrected): for a file member of size `S` and explicit
non-negative offsets, the read is empty when `start ≥ S`, or when
`end ≤ start` with `end ≠ 0`; an explicit `end = 0` is treated as
unspecified, so `read(name, 0, 0)` behaves like `read(name)` (full read). -/
theorem c3_empty_range_policy (files : Table) (src : Int → Int → List Nat) (p : String)
    (ent : Entry) (S : Nat) (stt en : Int)
    (hfind : dictFind? files (normalizePath p) = some ent)
    (hch : ent.children = none) (hsz : ent.size = some S) :
    (0 ≤ stt → 0 ≤ en → ((S : Int) ≤ stt ∨ (en ≤ stt ∧ en ≠ 0)) →
      cat_file files src p (some stt) (some en) = .ok [])
    ∧ cat_file files src p (some 0) (some 0) = cat_file files src p none none := by
  constructor
  · intro h0s h0e hcase
    simp only [cat_file, hfind, hch, hsz, pyOr, Option.isSome_none, Bool.false_eq_true,
      if_false, Option.getD_some]
    split_ifs <;> simp_all <;> omega
  · simp only [cat_file, hfind, hch, hsz, pyOr]
    simp

/-- Witness for C3 (amended): Scenario A, `x.txt` (size 5), range `[7, 7)`. -/
theorem c3_empty_range_policy_witness :
    cat_file (viewFiles scenarioA 213) (httpSource (serializeZip scenarioA)) "x.txt"
      (some 7) (some 7) = .ok []
    ∧ cat_file (viewFiles scenarioA 213) (httpSource (serializeZip scenarioA)) "x.txt"
      (some 0) (some 0)
      = cat_file (viewFiles scenarioA 213) (httpSource (serializeZip scenarioA)) "x.txt"
        none none := by
  have h := c3_empty_range_policy (viewFiles scenarioA 213)
    (httpSource (serializeZip scenarioA)) "x.txt" ⟨some 5, some 35, none⟩ 5 7 7
    (by decide) (by decide) (by decide)
  exact ⟨h.1 (by omega) (by omega) (by omega), h.2⟩

/-- Counterexample to claim C4 as stated: for the archive whose only member
is `a/b/c.txt`, the table contains the directory member `a/b`, whose strict
slash-separated parent `a` is absent from the table (only immediate parents
of file entries are synthesized). -/
theorem c4_counterexample :
    dictFind? (viewFiles deepArchive 117) "a/b" = some ⟨none, none, some ["a/b/c.txt"]⟩
    ∧ dictFind? (viewFiles deepArchive 117) "a" = none
    ∧ archiveSize deepArchive = 117 := by decide

/-- Claim C4 (corrected): only the immediate parent of each file entry is
guaranteed: for every infolist element with a nonempty stripped name, the
parent key of that name (`""` for top-level names) is present in the table
with a children list containing the full member name.  Deeper ancestors need
not be present. -/
theorem c4_parent_synthesis (l : List ZipInfo) (cs ofs : Nat) (i : ZipInfo)
    (hi : i ∈ l) (hn : strippedName i ≠ "") :
    ∃ e, dictFind? (build_zip_info l cs ofs) (parentKey (strippedName i)) = some e
      ∧ ∃ cl, e.children = some cl ∧ strippedName i ∈ cl := by
  have hmem : strippedName i ∈ childrenSpec l (parentKey (strippedName i)) := by
    unfold childrenSpec
    rw [List.mem_filter]
    refine ⟨List.mem_map_of_mem _ hi, ?_⟩
    simp [hn]
  obtain ⟨e, hfind, hch⟩ := build_children l cs ofs _ (List.ne_nil_of_mem hmem)
  exact ⟨e, hfind, _, hch, hmem⟩

/-- Witness for C4 (amended): the `dir/y.txt` record of Scenario A; its
parent `dir` is present and lists `dir/y.txt`. -/
theorem c4_parent_synthesis_witness :
    (⟨"dir/y.txt", 6, (40 : Int)⟩ : ZipInfo) ∈ tailInfolist scenarioA 213
    ∧ ∃ e, dictFind? (build_zip_info (tailInfolist scenarioA 213) 213 213)
        (parentKey (strippedName ⟨"dir/y.txt", 6, (40 : Int)⟩)) = some e
      ∧ ∃ cl, e.children = some cl
        ∧ strippedName (⟨"dir/y.txt", 6, (40 : Int)⟩ : ZipInfo) ∈ cl := by
  refine ⟨by decide, ?_⟩
  exact c4_parent_synthesis (tailInfolist scenarioA 213) 213 213 ⟨"dir/y.txt", 6, 40⟩
    (by decide) (by decide)

/-- Counterexample to claim C5 as stated: both failure paths raise the same
Python exception class.  Reading a missing member and reading a directory
both produce a `FileNotFoundError`; they are not distinct error kinds at the
exception-class level. -/
theorem c5_counterexample :
    readMember scenarioA 213 "missing.txt" none none
      = .error ⟨"FileNotFoundError", "File missing.txt not found"⟩
    ∧ readMember scenarioA 213 "dir" none none
      = .error ⟨"FileNotFoundError", "dir is a directory"⟩
    ∧ (PyErr.mk "FileNotFoundError" "File missing.txt not found").exnClass
      = (PyErr.mk "FileNotFoundError" "dir is a directory").exnClass := by decide

/-- Claim C5 (corrected): a missing member fails with
`FileNotFoundError("File {path} not found")` and a directory member fails
with `FileNotFoundError("{path} is a directory")`; both carry the same
exception class and are distinguishable only by their messages, which always
differ. -/
theorem c5_error_kinds (files : Table) (src : Int → Int → List Nat) (p : String)
    (s? e? : Option Int) :
    (dictFind? files (normalizePath p) = none →
      cat_file files src p s? e?
        = .error ⟨"FileNotFoundError", "File " ++ normalizePath p ++ " not found"⟩)
    ∧ (∀ ent : Entry, dictFind? files (normalizePath p) = some ent → ent.children.isSome →
      cat_file files src p s? e?
        = .error ⟨"FileNotFoundError", normalizePath p ++ " is a directory"⟩)
    ∧ ("File " ++ normalizePath p ++ " not found" : String)
        ≠ normalizePath p ++ " is a directory" := by
  refine ⟨fun hn => ?_, fun ent hf hch => ?_, notFoundMsg_ne_isDirMsg _⟩
  · simp only [cat_file, hn]
  · simp only [cat_file, hf, hch, if_true]

/-- Witness for C5 (amended): Scenario A, the missing path `missing.txt` and
the directory path `dir`. -/
theorem c5_error_kinds_witness :
    readMember scenarioA 213 "missing.txt" none none
      = .error ⟨"FileNotFoundError", "File " ++ normalizePath "missing.txt" ++ " not found"⟩
    ∧ readMember scenarioA 213 "dir" none none
      = .error ⟨"FileNotFoundError", normalizePath "dir" ++ " is a directory"⟩ := by
  constructor
  · exact (c5_error_kinds (viewFiles scenarioA 213)
      (httpSource (serializeZip scenarioA)) "missing.txt" none none).1 (by decide)
  · exact (c5_error_kinds (viewFiles scenarioA 213)
      (httpSource (serializeZip scenarioA)) "dir" none none).2.1
      ⟨none, none, some ["dir/y.txt"]⟩ (by decide) (by decide)

/-- Counterexample to claim C6 as stated: in the Scenario A table the
children of `dir` are recorded as the full member name `dir/y.txt`, not as
the last path segment `y.txt`. -/
theorem c6_counterexample :
    dictFind? (viewFiles scenarioA 213) "dir" = some ⟨none, none, some ["dir/y.txt"]⟩
    ∧ (["dir/y.txt"] : List String) ≠ ["y.txt"] := by decide

/-- Claim C6 (corrected): the children list of a directory member holds exactly
the FULL stripped names of the file entries whose parent key is that
directory, in infolist order (not the bare last path segments). -/
theorem c6_children_lists (l : List ZipInfo) (cs ofs : Nat) (p : String)
    (h : childrenSpec l p ≠ []) :
    ∃ e, dictFind? (build_zip_info l cs ofs) p = some e
      ∧ e.children = some (childrenSpec l p) :=
  build_children l cs ofs p h

/-- Witness for C6 (amended): Scenario A, directory `dir`, whose children
list is exactly `["dir/y.txt"]`. -/
theorem c6_children_lists_witness :
    childrenSpec (tailInfolist scenarioA 213) "dir" = ["dir/y.txt"]
    ∧ ∃ e, dictFind? (build_zip_info (tailInfolist scenarioA 213) 213 213) "dir" = some e
      ∧ e.children = some (childrenSpec (tailInfolist scenarioA 213) "dir") := by
  refine ⟨by decide, ?_⟩
  exact c6_children_lists (tailInfolist scenarioA 213) 213 213 "dir" (by decide)

/-- Claim C7 (confirmed): opening the same archive with any two tail-window
sizes that both contain the full central directory and EOCD record produces
identical member tables (hence identical `content_offset` and `size` values
for every member): the window length cancels out of the offset formula. -/
theorem c7_window_independence (ms : List ZipMember) (L1 L2 : Nat)
    (h1 : validWindow ms L1) (h2 : validWindow ms L2) :
    viewFiles ms L1 = viewFiles ms L2 := by
  clear h1 h2
  unfold viewFiles
  apply build_congr
  unfold tailInfolist
  simp only [List.map_map]
  apply List.map_congr_left
  intro p _
  simp only [Function.comp_apply, resolve]
  rw [ZipInfo.mk.injEq]
  refine ⟨rfl, rfl, by ring⟩

/-- Witness for C7: Scenario A opened with a 213-byte (whole archive) and a
150-byte window; its central directory plus EOCD take 128 bytes. -/
theorem c7_window_independence_witness :
    validWindow scenarioA 213
    ∧ validWindow scenarioA 150
    ∧ viewFiles scenarioA 213 = viewFiles scenarioA 150 :=
  ⟨by decide, by decide,
    c7_window_independence scenarioA 213 150 (by decide) (by decide)⟩

/-- Counterexample to claim C8 as stated: at `k = 0` the two reads differ on
the member `x.txt` of Scenario A (size 5): `read(name, -0, None)` is a full read while
`read(name, max(0, 5-0), 5) = read(name, 5, 5)` is empty. -/
theorem c8_counterexample :
    readMember scenarioA 213 "x.txt" (some (-(0 : Int))) none = .ok helloBytes
    ∧ readMember scenarioA 213 "x.txt" (some (max 0 ((5 : Int) - 0))) (some 5) = .ok []
    ∧ Except.ok helloBytes ≠ (.ok [] : Except PyErr (List Nat)) := by decide

/-- Claim C8 (corrected): the negative-index equivalence holds for `k ≥ 1`
(not `k ≥ 0`): for a file member of size `S`,
`read(name, -k, None) = read(name, max(0, S-k), S)`. -/
theorem c8_negative_index (files : Table) (src : Int → Int → List Nat) (p : String)
    (ent : Entry) (S : Nat) (k : Nat)
    (hfind : dictFind? files (normalizePath p) = some ent)
    (hch : ent.children = none) (hsz : ent.size = some S) (hk : 1 ≤ k) :
    cat_file files src p (some (-(k : Int))) none
      = cat_file files src p (some (max 0 ((S : Int) - (k : Int)))) (some (S : Int)) := by
  simp only [cat_file, hfind, hch, hsz, pyOr, Option.isSome_none, Bool.false_eq_true,
    if_false, Option.getD_some]
  have hk0 : ¬(-(k : Int) = 0) := by omega
  have hkneg : -(k : Int) < 0 := by omega
  have hSnn : ¬((S : Int) < 0) := by omega
  have hmax : ¬(max 0 ((S : Int) - (k : Int)) < 0) := by omega
  have heq : (S : Int) + -(k : Int) = (S : Int) - (k : Int) := by ring
  rw [if_neg hk0, if_pos hkneg, if_neg hSnn, heq]
  have hstart : (if max 0 ((S : Int) - (k : Int)) = 0 then 0 else max 0 ((S : Int) - (k : Int)))
      = max 0 ((S : Int) - (k : Int)) := by
    split_ifs with h
    · omega
    · rfl
  rw [hstart, if_neg hmax]
  have hend : (if (S : Int) = 0 then (S : Int) else (S : Int)) = (S : Int) := ite_self _
  rw [hend, if_neg hSnn]

/-- Witness for C8 (amended): Scenario A, `x.txt` (size 5), `k = 2`. -/
theorem c8_negative_index_witness :
    cat_file (viewFiles scenarioA 213) (httpSource (serializeZip scenarioA)) "x.txt"
      (some (-((2 : Nat) : Int))) none
      = cat_file (viewFiles scenarioA 213) (httpSource (serializeZip scenarioA)) "x.txt"
        (some (max 0 (((5 : Nat) : Int) - ((2 : Nat) : Int)))) (some ((5 : Nat) : Int)) :=
  c8_negative_index (viewFiles scenarioA 213) (httpSource (serializeZip scenarioA))
    "x.txt" ⟨some 5, some 35, none⟩ 5 2 (by decide) (by decide) (by decide) (by decide)

/-- Counterexample to claim C9 as stated: with a ranged source that delivers
no bytes at all, reading `x.txt` (size 5, requested length 5) returns the
short result `b""` as a successful value instead of failing with a read
error: `_cat_file` performs no length validation. -/
theorem c9_counterexample :
    cat_file (viewFiles scenarioA 213) (fun _ _ => []) "x.txt" none none = .ok []
    ∧ dictFind? (viewFiles scenarioA 213) "x.txt" = some ⟨some 5, some 35, none⟩
    ∧ ([] : List Nat).length ≠ 5 := by decide

/-- Claim C9 (corrected): for a non-empty effective range the read delegates
to the ranged source for exactly `min(end, size) - start` bytes starting at
`offset + start` and returns whatever bytes the source delivers, without
validating their count; the returned length equals the requested length only
when the source honours ranges exactly. -/
theorem c9_read_delegation (files : Table) (src : Int → Int → List Nat) (p : String)
    (ent : Entry) (S : Nat) (start? end? : Option Int) (s1 e1 : Int)
    (hfind : dictFind? files (normalizePath p) = some ent)
    (hch : ent.children = none) (hsz : ent.size = some S)
    (hs1 : s1 = if pyOr start? 0 < 0 then max 0 ((S : Int) + pyOr start? 0) else pyOr start? 0)
    (he1 : e1 = if pyOr end? (S : Int) < 0 then max 0 ((S : Int) + pyOr end? (S : Int))
      else pyOr end? (S : Int))
    (hne : ¬(s1 ≥ (S : Int) ∨ e1 ≤ s1)) :
    cat_file files src p start? end?
      = .ok (src (ent.offset.getD 0 + s1) (ent.offset.getD 0 + s1 + (min e1 (S : Int) - s1)))
    ∧ ((∀ a b : Int, ((src a b).length : Int) = max 0 (b - a)) →
        ((src (ent.offset.getD 0 + s1)
          (ent.offset.getD 0 + s1 + (min e1 (S : Int) - s1))).length : Int)
          = min e1 (S : Int) - s1) := by
  constructor
  · subst hs1
    subst he1
    simp only [cat_file, hfind, hch, hsz, Option.isSome_none, Bool.false_eq_true,
      if_false, Option.getD_some]
    rw [if_neg hne]
  · intro hsrc
    rw [hsrc]
    omega

/-- Witness for C9 (amended): Scenario A, full read of `x.txt` against the
honest HTTP source, with effective range `[0, 5)`. -/
theorem c9_read_delegation_witness :
    cat_file (viewFiles scenarioA 213) (httpSource (serializeZip scenarioA)) "x.txt"
      none none = .ok helloBytes := by
  have h := (c9_read_delegation (viewFiles scenarioA 213)
    (httpSource (serializeZip scenarioA)) "x.txt" ⟨some 5, some 35, none⟩ 5 none none 0 5
    (by decide) (by decide) (by decide) (by decide) (by decide) (by decide)).1
  rw [h]
  decide

/-- Counterexample to claim C10 as stated: the root `""` is a member of the
Scenario A table, and `"/"` normalizes to `""`, yet `read("/")` fails with
the directory message while `read("")` fails with the not-found message for
`"."` (the empty path normalizes to `"."`), so the two results differ. -/
theorem c10_counterexample :
    dictFind? (viewFiles scenarioA 213) "" = some ⟨none, none, some ["x.txt"]⟩
    ∧ normalizePath "/" = ""
    ∧ readMember scenarioA 213 "/" none none
      = .error ⟨"FileNotFoundError", " is a directory"⟩
    ∧ readMember scenarioA 213 "" none none
      = .error ⟨"FileNotFoundError", "File . not found"⟩
    ∧ (Except.error ⟨"FileNotFoundError", " is a directory"⟩ : Except PyErr (List Nat))
      ≠ .error ⟨"FileNotFoundError", "File . not found"⟩ := by decide

/-- Claim C10 (corrected): for every member name `m` that is itself a fixed
point of the normalization (as every ordinary nonempty member name is), any
path `p` that normalizes to `m` — POSIX `normpath` resolution of `.` and
`..` plus stripping of leading and trailing slashes — reads identically to
`m` for every start and end. -/
theorem c10_path_normalization (files : Table) (src : Int → Int → List Nat)
    (m p : String) (s? e? : Option Int)
    (hm : normalizePath m = m) (hp : normalizePath p = m) :
    cat_file files src p s? e? = cat_file files src m s? e? := by
  simp only [cat_file]
  rw [hp, hm]

/-- Witness for C10 (amended): Scenario A, `p = "dir/../x.txt"` against
`m = "x.txt"`. -/
theorem c10_path_normalization_witness :
    normalizePath "x.txt" = "x.txt"
    ∧ normalizePath "dir/../x.txt" = "x.txt"
    ∧ readMember scenarioA 213 "dir/../x.txt" none none
      = readMember scenarioA 213 "x.txt" none none := by
  refine ⟨by decide, by decide, ?_⟩
  exact c10_path_normalization (viewFiles scenarioA 213)
    (httpSource (serializeZip scenarioA)) "x.txt" "dir/../x.txt" none none
    (by decide) (by decide)

end Prr
